import Mathlib

/-!
Verification of the script-transformation core of the AncientLanguages
repository (`backend/app/lesson/script_utils.py`).

Python strings are modelled as lists of Unicode codepoints (`Str := List Nat`).
The Unicode data consulted by the code through `unicodedata`, `str.upper`,
`str.lower`, `str.isupper`, `str.isalpha` and the `re` module is modelled by
explicit finite tables restricted to the character universe this module's
Greek/Latin pipeline exercises (ASCII, the Greek and Coptic block, the
combining diacritical marks block, a representative part of Greek Extended,
and the Roman-numeral codepoints); codepoints outside the tables have no
decomposition, no case mapping and belong to no category, which agrees with
real Unicode on every codepoint the program's domain touches.
-/

set_option maxRecDepth 100000

namespace ScriptUtils

/-- A Python `str` value, as its sequence of Unicode codepoints. -/
abbrev Str := List Nat

/-- Concatenation of the images of each codepoint (Python-style charwise map). -/
def mapCat (f : Nat → Str) : Str → Str
  | [] => []
  | c :: rest => f c ++ mapCat f rest

/-- First-match association lookup, as used for the modelled Unicode tables. -/
def assoc {α : Type} (c : Nat) : List (Nat × α) → Option α
  | [] => none
  | (k, v) :: rest => if c = k then some v else assoc c rest

/-- Does `w` match at the head of `s` (literal codepoint comparison)? -/
def prefMatch : Str → Str → Bool
  | [], _ => true
  | _ :: _, [] => false
  | a :: as, b :: bs => a == b && prefMatch as bs

/-- Fuel-driven worker for `pyReplace`; the fuel is the length of the scanned
string, so the exhaustion branch is never reached in `pyReplace`. -/
def pyReplaceAux (old new : Str) : Nat → Str → Str
  | _, [] => []
  | 0, s => s
  | Nat.succ fuel, c :: rest =>
    if old ≠ [] && prefMatch old (c :: rest) then
      new ++ pyReplaceAux old new fuel (rest.drop (old.length - 1))
    else
      c :: pyReplaceAux old new fuel rest

/-- Python `s.replace(old, new)`: left-to-right non-overlapping literal
replacement.  (Python's behaviour for an empty `old` is never exercised by
the program; it is modelled as the identity.) -/
def pyReplace (s old new : Str) : Str :=
  pyReplaceAux old new s.length s

/-- Apply an ordered list of `(single codepoint, replacement)` rules by
successive `str.replace` calls, in list order, exactly as the Python code
iterates its substitution dictionaries. -/
def chainRules (rules : List (Nat × Str)) (s : Str) : Str :=
  rules.foldl (fun acc p => pyReplace acc [p.1] p.2) s

/-- Worker for `subRuns`: `inRun` records whether the previous character
already belonged to the run being replaced. -/
def subRunsGo (p : Nat → Bool) (repl : Str) (inRun : Bool) : Str → Str
  | [] => []
  | c :: rest =>
    if p c then (if inRun then [] else repl) ++ subRunsGo p repl true rest
    else c :: subRunsGo p repl false rest

/-- Python `re.sub("X+", repl, s)` for a single-character-class `X`:
every maximal run of characters satisfying `p` becomes one copy of `repl`. -/
def subRuns (p : Nat → Bool) (repl : Str) (s : Str) : Str :=
  subRunsGo p repl false s

/-- Python `str.isspace` / the whitespace set stripped by `str.strip()`. -/
def isPySpace (c : Nat) : Bool :=
  (0x09 ≤ c && c ≤ 0x0D) || (0x1C ≤ c && c ≤ 0x1F) || c == 0x20 ||
  c == 0x85 || c == 0xA0 || c == 0x1680 || (0x2000 ≤ c && c ≤ 0x200A) ||
  c == 0x2028 || c == 0x2029 || c == 0x202F || c == 0x205F || c == 0x3000

/-- Python `str.strip()` with no arguments: remove leading and trailing
whitespace. -/
def pyStrip (s : Str) : Str :=
  ((s.dropWhile isPySpace).reverse.dropWhile isPySpace).reverse

/-! ## Unicode normalization model (the part of `unicodedata` the code uses) -/

/-- Raw canonical decompositions (UnicodeData.txt field 5, canonical entries
only) for the modelled universe. -/
def rawDecomp : List (Nat × Str) := [
  (0x0386, [0x0391, 0x0301]),
  (0x0388, [0x0395, 0x0301]),
  (0x0389, [0x0397, 0x0301]),
  (0x038A, [0x0399, 0x0301]),
  (0x038C, [0x039F, 0x0301]),
  (0x038E, [0x03A5, 0x0301]),
  (0x038F, [0x03A9, 0x0301]),
  (0x03AA, [0x0399, 0x0308]),
  (0x03AB, [0x03A5, 0x0308]),
  (0x03AC, [0x03B1, 0x0301]),
  (0x03AD, [0x03B5, 0x0301]),
  (0x03AE, [0x03B7, 0x0301]),
  (0x03AF, [0x03B9, 0x0301]),
  (0x03CC, [0x03BF, 0x0301]),
  (0x03CD, [0x03C5, 0x0301]),
  (0x03CE, [0x03C9, 0x0301]),
  (0x03CA, [0x03B9, 0x0308]),
  (0x03CB, [0x03C5, 0x0308]),
  (0x0390, [0x03CA, 0x0301]),
  (0x03B0, [0x03CB, 0x0301]),
  (0x1FD6, [0x03B9, 0x0342]),
  (0x1F66, [0x1F60, 0x0342]),
  (0x1F60, [0x03C9, 0x0313]),
  (0x1FB3, [0x03B1, 0x0345]),
  (0x1FF3, [0x03C9, 0x0345]),
  (0x1FF6, [0x03C9, 0x0342]),
  (0x1FF7, [0x1FF6, 0x0345]),
  (0x1FB6, [0x03B1, 0x0342]),
  (0x1FC6, [0x03B7, 0x0342]),
  (0x1FC3, [0x03B7, 0x0345])
]

/-- Canonical combining classes of the combining marks in the universe. -/
def cccTable : List (Nat × Nat) := [
  (0x0300, 230),
  (0x0301, 230),
  (0x0304, 230),
  (0x0306, 230),
  (0x0308, 230),
  (0x0313, 230),
  (0x0314, 230),
  (0x0342, 230),
  (0x0345, 240),
  (0x035E, 234)
]

/-- Canonical combining class (0 for starters). -/
def ccc (c : Nat) : Nat :=
  (assoc c cccTable).getD 0

/-- Unicode general category `Mn` (nonspacing mark) membership for the
modelled universe: the Combining Diacritical Marks block. -/
def isMn (c : Nat) : Bool :=
  0x0300 ≤ c && c ≤ 0x036F

/-- One decomposition step for a codepoint (identity for starters). -/
def decompStep (c : Nat) : Str :=
  match assoc c rawDecomp with
  | some d => d
  | none => [c]

/-- A codepoint with no canonical decomposition (an NFD-inert character). -/
def inertB (c : Nat) : Bool :=
  (assoc c rawDecomp).isNone

/-- One decomposition pass over a string. -/
def expandOnce (s : Str) : Str :=
  mapCat decompStep s

/-- Full canonical decomposition: the maximal decomposition depth in the
modelled universe is 3, so four passes reach the fixed point. -/
def expandFull (s : Str) : Str :=
  expandOnce (expandOnce (expandOnce (expandOnce s)))

/-- Stable sort of one combining-character run by canonical combining class
(the Canonical Ordering Algorithm acts independently on each maximal run of
characters with `ccc ≠ 0`). -/
def sortRun (run : Str) : Str :=
  List.insertionSort (fun a b => ccc a ≤ ccc b) run

/-- Worker for `reorder`: `run` accumulates (reversed) the pending combining
characters of the current run. -/
def reorderGo (run : Str) : Str → Str
  | [] => sortRun run.reverse
  | c :: rest =>
    if ccc c = 0 then sortRun run.reverse ++ c :: reorderGo [] rest
    else reorderGo (c :: run) rest

/-- The Canonical Ordering Algorithm of UAX #15. -/
def reorder (s : Str) : Str :=
  reorderGo [] s

/-- `unicodedata.normalize("NFD", s)`. -/
def nfd (s : Str) : Str :=
  reorder (expandFull s)

/-- Primary composite of a pair, derived from the two-codepoint canonical
decompositions (in the modelled universe no such pair is in the composition
exclusion set, and singleton decompositions never recompose). -/
def primaryCompose (a b : Nat) : Option Nat :=
  match rawDecomp.find? (fun p => p.2 == [a, b]) with
  | some p => some p.1
  | none => none

/-- Worker for `composeSeq` (the Canonical Composition Algorithm): `L` is the
last starter, `marks` the (reversed) combining characters seen after it. -/
def composeGo (L : Nat) (marks : Str) : Str → Str
  | [] => L :: marks.reverse
  | c :: rest =>
    if ccc c = 0 then
      match (if marks.isEmpty then primaryCompose L c else none) with
      | some z => composeGo z [] rest
      | none => (L :: marks.reverse) ++ composeGo c [] rest
    else
      if (match marks with | [] => true | m :: _ => ccc m < ccc c) then
        match primaryCompose L c with
        | some z => composeGo z marks rest
        | none => composeGo L (c :: marks) rest
      else composeGo L (c :: marks) rest

/-- Canonical composition of a canonically decomposed and ordered string. -/
def composeSeq : Str → Str
  | [] => []
  | c :: rest => composeGo c [] rest

/-- `unicodedata.normalize("NFC", s)`: decompose, then compose. -/
def nfc (s : Str) : Str :=
  composeSeq (nfd s)

/-! ## Case mapping model (Python `str.upper` / `str.lower`) -/

/-- Full uppercase mappings (UnicodeData + SpecialCasing) for the universe. -/
def upperTable : List (Nat × Str) := [
  (0x0061, [0x0041]), (0x0062, [0x0042]), (0x0063, [0x0043]),
  (0x0064, [0x0044]), (0x0065, [0x0045]), (0x0066, [0x0046]),
  (0x0067, [0x0047]), (0x0068, [0x0048]), (0x0069, [0x0049]),
  (0x006A, [0x004A]), (0x006B, [0x004B]), (0x006C, [0x004C]),
  (0x006D, [0x004D]), (0x006E, [0x004E]), (0x006F, [0x004F]),
  (0x0070, [0x0050]), (0x0071, [0x0051]), (0x0072, [0x0052]),
  (0x0073, [0x0053]), (0x0074, [0x0054]), (0x0075, [0x0055]),
  (0x0076, [0x0056]), (0x0077, [0x0057]), (0x0078, [0x0058]),
  (0x0079, [0x0059]), (0x007A, [0x005A]),
  (0x0390, [0x0399, 0x0308, 0x0301]),
  (0x03AC, [0x0386]), (0x03AD, [0x0388]), (0x03AE, [0x0389]),
  (0x03AF, [0x038A]),
  (0x03B0, [0x03A5, 0x0308, 0x0301]),
  (0x03B1, [0x0391]), (0x03B2, [0x0392]), (0x03B3, [0x0393]),
  (0x03B4, [0x0394]), (0x03B5, [0x0395]), (0x03B6, [0x0396]),
  (0x03B7, [0x0397]), (0x03B8, [0x0398]), (0x03B9, [0x0399]),
  (0x03BA, [0x039A]), (0x03BB, [0x039B]), (0x03BC, [0x039C]),
  (0x03BD, [0x039D]), (0x03BE, [0x039E]), (0x03BF, [0x039F]),
  (0x03C0, [0x03A0]), (0x03C1, [0x03A1]), (0x03C2, [0x03A3]),
  (0x03C3, [0x03A3]), (0x03C4, [0x03A4]), (0x03C5, [0x03A5]),
  (0x03C6, [0x03A6]), (0x03C7, [0x03A7]), (0x03C8, [0x03A8]),
  (0x03C9, [0x03A9]), (0x03CA, [0x03AA]), (0x03CB, [0x03AB]),
  (0x03CC, [0x038C]), (0x03CD, [0x038E]), (0x03CE, [0x038F]),
  (0x1FB3, [0x0391, 0x0399]),
  (0x1FB6, [0x0391, 0x0342]),
  (0x1FC3, [0x0397, 0x0399]),
  (0x1FC6, [0x0397, 0x0342]),
  (0x1FF3, [0x03A9, 0x0399]),
  (0x1FF6, [0x03A9, 0x0342])
]

/-- Full lowercase mappings for the universe.  Capital sigma `0x03A3` is
absent because Python handles it through the final-sigma context rule. -/
def lowerTable : List (Nat × Str) := [
  (0x0041, [0x0061]), (0x0042, [0x0062]), (0x0043, [0x0063]),
  (0x0044, [0x0064]), (0x0045, [0x0065]), (0x0046, [0x0066]),
  (0x0047, [0x0067]), (0x0048, [0x0068]), (0x0049, [0x0069]),
  (0x004A, [0x006A]), (0x004B, [0x006B]), (0x004C, [0x006C]),
  (0x004D, [0x006D]), (0x004E, [0x006E]), (0x004F, [0x006F]),
  (0x0050, [0x0070]), (0x0051, [0x0071]), (0x0052, [0x0072]),
  (0x0053, [0x0073]), (0x0054, [0x0074]), (0x0055, [0x0075]),
  (0x0056, [0x0076]), (0x0057, [0x0077]), (0x0058, [0x0078]),
  (0x0059, [0x0079]), (0x005A, [0x007A]),
  (0x0386, [0x03AC]), (0x0388, [0x03AD]), (0x0389, [0x03AE]),
  (0x038A, [0x03AF]), (0x038C, [0x03CC]), (0x038E, [0x03CD]),
  (0x038F, [0x03CE]),
  (0x0391, [0x03B1]), (0x0392, [0x03B2]), (0x0393, [0x03B3]),
  (0x0394, [0x03B4]), (0x0395, [0x03B5]), (0x0396, [0x03B6]),
  (0x0397, [0x03B7]), (0x0398, [0x03B8]), (0x0399, [0x03B9]),
  (0x039A, [0x03BA]), (0x039B, [0x03BB]), (0x039C, [0x03BC]),
  (0x039D, [0x03BD]), (0x039E, [0x03BE]), (0x039F, [0x03BF]),
  (0x03A0, [0x03C0]), (0x03A1, [0x03C1]), (0x03A4, [0x03C4]),
  (0x03A5, [0x03C5]), (0x03A6, [0x03C6]), (0x03A7, [0x03C7]),
  (0x03A8, [0x03C8]), (0x03A9, [0x03C9]), (0x03AA, [0x03CA]),
  (0x03AB, [0x03CB])
]

/-- Uppercase mapping of one codepoint (identity outside the table). -/
def upperChar (c : Nat) : Str :=
  match assoc c upperTable with
  | some v => v
  | none => [c]

/-- Lowercase mapping of one codepoint (identity outside the table). -/
def lowerChar (c : Nat) : Str :=
  match assoc c lowerTable with
  | some v => v
  | none => [c]

/-- Python `str.upper()`: charwise full uppercase mapping. -/
def py_upper (s : Str) : Str :=
  mapCat upperChar s

/-- Derived property `Cased`, restricted to the universe. -/
def isCasedB (c : Nat) : Bool :=
  (0x41 ≤ c && c ≤ 0x5A) || (0x61 ≤ c && c ≤ 0x7A) ||
  c == 0x386 || (0x388 ≤ c && c ≤ 0x38A) || c == 0x38C ||
  (0x38E ≤ c && c ≤ 0x3A1) || (0x3A3 ≤ c && c ≤ 0x3CE) ||
  (0x1F00 ≤ c && c ≤ 0x1FB4) || (0x1FB6 ≤ c && c ≤ 0x1FBC) ||
  (0x1FC2 ≤ c && c ≤ 0x1FCC) || (0x1FD0 ≤ c && c ≤ 0x1FD6) ||
  (0x1FF2 ≤ c && c ≤ 0x1FFC) || (0x2160 ≤ c && c ≤ 0x216F)

/-- Derived property `Case_Ignorable`, restricted to the universe
(nonspacing marks plus the MidLetter/MidNumLet word-break punctuation). -/
def isCaseIgnorableB (c : Nat) : Bool :=
  isMn c || c == 0x27 || c == 0x2E || c == 0x3A || c == 0xB7

/-- The Final_Sigma context condition of Unicode SpecialCasing, as CPython
implements it in `str.lower`: preceded by a cased character (skipping
case-ignorable ones) and not followed by one.  `before` is the reversed
prefix of the string up to the sigma. -/
def finalSigmaCtx (before rest : Str) : Bool :=
  (match before.dropWhile isCaseIgnorableB with
   | [] => false
   | c :: _ => isCasedB c) &&
  !(match rest.dropWhile isCaseIgnorableB with
    | [] => false
    | c :: _ => isCasedB c)

/-- Worker for `py_lower`; `before` is the reversed processed prefix. -/
def lowerGo (before : Str) : Str → Str
  | [] => []
  | c :: rest =>
    (if c = 0x3A3 then (if finalSigmaCtx before rest then [0x3C2] else [0x3C3])
     else lowerChar c) ++ lowerGo (c :: before) rest

/-- Python `str.lower()`: charwise full lowercase mapping with the
context-sensitive final-sigma rule. -/
def py_lower (s : Str) : Str :=
  lowerGo [] s

/-! ## Character classification model (Python `str` predicates, `re` word
characters) -/

/-- Python `str.isalpha` for one codepoint (general category `L*`),
restricted to the universe. -/
def isalphaPy (c : Nat) : Bool :=
  (0x41 ≤ c && c ≤ 0x5A) || (0x61 ≤ c && c ≤ 0x7A) ||
  c == 0x386 || (0x388 ≤ c && c ≤ 0x38A) || c == 0x38C ||
  (0x38E ≤ c && c ≤ 0x3A1) || (0x3A3 ≤ c && c ≤ 0x3CE) ||
  (0x1F00 ≤ c && c ≤ 0x1FB4) || (0x1FB6 ≤ c && c ≤ 0x1FBC) ||
  (0x1FC2 ≤ c && c ≤ 0x1FCC) || (0x1FD0 ≤ c && c ≤ 0x1FD6) ||
  (0x1FF2 ≤ c && c ≤ 0x1FFC)

/-- Python `str.isupper` for one codepoint: the derived `Uppercase` property,
which includes the `Nl` Roman numerals U+2160..216F through
`Other_Uppercase` (DerivedCoreProperties.txt), although they are not
alphabetic. -/
def isupperPy (c : Nat) : Bool :=
  (0x41 ≤ c && c ≤ 0x5A) ||
  c == 0x386 || (0x388 ≤ c && c ≤ 0x38A) || c == 0x38C ||
  (0x38E ≤ c && c ≤ 0x38F) || (0x391 ≤ c && c ≤ 0x3A1) ||
  (0x3A3 ≤ c && c ≤ 0x3AB) || (0x1FB8 ≤ c && c ≤ 0x1FBB) ||
  (0x1FC8 ≤ c && c ≤ 0x1FCB) || (0x1FD8 ≤ c && c ≤ 0x1FDB) ||
  (0x1FF8 ≤ c && c ≤ 0x1FFB) || (0x2160 ≤ c && c ≤ 0x216F)

/-- A word character for Python's `re` module (`\w` / the characters between
which `\b` sees no boundary): alphanumeric or underscore.  Combining marks
are not alphanumeric, hence not word characters. -/
def isWordCharB (c : Nat) : Bool :=
  isalphaPy c || (0x30 ≤ c && c ≤ 0x39) || c == 0x5F || (0x2160 ≤ c && c ≤ 0x216F)

/-- Fuel-driven worker modelling `re.sub(rf"\b{w}\b", repl, s)` for a
pattern `w` that is a nonempty literal word of word characters: leftmost,
non-overlapping replacement; a match requires a `\b` boundary on each side
(`prev` is the character just before the scan position, `none` at the start
of the string). -/
def subWBAux (w repl : Str) : Nat → Option Nat → Str → Str
  | _, _, [] => []
  | 0, _, s => s
  | Nat.succ fuel, prev, c :: rest =>
    if w ≠ [] &&
       (match prev with | none => true | some p => !isWordCharB p) &&
       prefMatch w (c :: rest) &&
       (match (c :: rest).drop w.length with
        | [] => true
        | d :: _ => !isWordCharB d) then
      repl ++ subWBAux w repl fuel (some (w.getLastD 0)) (rest.drop (w.length - 1))
    else
      c :: subWBAux w repl fuel (some c) rest

/-- `re.sub(rf"\b{w}\b", repl, s)` for a literal word `w`. -/
def subWordBounded (w repl s : Str) : Str :=
  subWBAux w repl s.length none s

/-! ## Embedding of `backend/app/lesson/script_utils.py` -/

/-- The Greek monotonic precomposed-accent exception map of `_remove_accents` (source lines 104-114), in source order. -/
def greek_monotonic_map : List (Nat × Str) := [
  (0x0386, [0x0391]),
  (0x0388, [0x0395]),
  (0x0389, [0x0397]),
  (0x038A, [0x0399]),
  (0x038C, [0x039F]),
  (0x038E, [0x03A5]),
  (0x038F, [0x03A9]),
  (0x03AA, [0x0399]),
  (0x03AB, [0x03A5])
]

/-- The lowercase iota-subscript table of `convert_iota_subscript_to_adscript` (source lines 150-189), in source order. -/
def lowercase_map : List (Nat × Str) := [
  (0x1F80, [0x03B1, 0x03B9]),
  (0x1F81, [0x03B1, 0x03B9]),
  (0x1F82, [0x03B1, 0x03B9]),
  (0x1F83, [0x03B1, 0x03B9]),
  (0x1F84, [0x03B1, 0x03B9]),
  (0x1F85, [0x03B1, 0x03B9]),
  (0x1F86, [0x03B1, 0x03B9]),
  (0x1F87, [0x03B1, 0x03B9]),
  (0x1FB0, [0x03B1]),
  (0x1FB1, [0x03B1]),
  (0x1FB3, [0x03B1, 0x03B9]),
  (0x1FB4, [0x03B1, 0x03B9]),
  (0x1FB6, [0x03B1]),
  (0x1FB7, [0x03B1, 0x03B9]),
  (0x1F90, [0x03B7, 0x03B9]),
  (0x1F91, [0x03B7, 0x03B9]),
  (0x1F92, [0x03B7, 0x03B9]),
  (0x1F93, [0x03B7, 0x03B9]),
  (0x1F94, [0x03B7, 0x03B9]),
  (0x1F95, [0x03B7, 0x03B9]),
  (0x1F96, [0x03B7, 0x03B9]),
  (0x1F97, [0x03B7, 0x03B9]),
  (0x1FC3, [0x03B7, 0x03B9]),
  (0x1FC4, [0x03B7, 0x03B9]),
  (0x1FC6, [0x03B7]),
  (0x1FC7, [0x03B7, 0x03B9]),
  (0x1FA0, [0x03C9, 0x03B9]),
  (0x1FA1, [0x03C9, 0x03B9]),
  (0x1FA2, [0x03C9, 0x03B9]),
  (0x1FA3, [0x03C9, 0x03B9]),
  (0x1FA4, [0x03C9, 0x03B9]),
  (0x1FA5, [0x03C9, 0x03B9]),
  (0x1FA6, [0x03C9, 0x03B9]),
  (0x1FA7, [0x03C9, 0x03B9]),
  (0x1FF3, [0x03C9, 0x03B9]),
  (0x1FF4, [0x03C9, 0x03B9]),
  (0x1FF6, [0x03C9]),
  (0x1FF7, [0x03C9, 0x03B9])
]

/-- The uppercase iota-subscript table of `convert_iota_subscript_to_adscript` (source lines 192-220), in source order. -/
def uppercase_map : List (Nat × Str) := [
  (0x1F88, [0x0391, 0x0399]),
  (0x1F89, [0x0391, 0x0399]),
  (0x1F8A, [0x0391, 0x0399]),
  (0x1F8B, [0x0391, 0x0399]),
  (0x1F8C, [0x0391, 0x0399]),
  (0x1F8D, [0x0391, 0x0399]),
  (0x1F8E, [0x0391, 0x0399]),
  (0x1F8F, [0x0391, 0x0399]),
  (0x1FBC, [0x0391, 0x0399]),
  (0x1F98, [0x0397, 0x0399]),
  (0x1F99, [0x0397, 0x0399]),
  (0x1F9A, [0x0397, 0x0399]),
  (0x1F9B, [0x0397, 0x0399]),
  (0x1F9C, [0x0397, 0x0399]),
  (0x1F9D, [0x0397, 0x0399]),
  (0x1F9E, [0x0397, 0x0399]),
  (0x1F9F, [0x0397, 0x0399]),
  (0x1FCC, [0x0397, 0x0399]),
  (0x1FA8, [0x03A9, 0x0399]),
  (0x1FA9, [0x03A9, 0x0399]),
  (0x1FAA, [0x03A9, 0x0399]),
  (0x1FAB, [0x03A9, 0x0399]),
  (0x1FAC, [0x03A9, 0x0399]),
  (0x1FAD, [0x03A9, 0x0399]),
  (0x1FAE, [0x03A9, 0x0399]),
  (0x1FAF, [0x03A9, 0x0399]),
  (0x1FFC, [0x03A9, 0x0399])
]

/-- The modern-punctuation replacement table of `remove_modern_punctuation` (source lines 391-406), in source order. -/
def modern_punctuation : List (Nat × Str) := [
  (0x003F, []),
  (0x0021, []),
  (0x002C, [0x0020]),
  (0x003B, [0x0020]),
  (0x003A, [0x0020]),
  (0x002E, [0x0020]),
  (0x0022, []),
  (0x0027, []),
  (0x2014, [0x0020]),
  (0x2013, [0x0020]),
  (0x0028, []),
  (0x0029, []),
  (0x005B, []),
  (0x005D, [])
]

/-- The nomina-sacra dictionary of `apply_nomina_sacra` (source lines 330-358), in source (insertion) order; each abbreviation letter is followed by the combining overline U+035E. -/
def nomina_sacra : List (Str × Str) := [
  ([0x0398, 0x0395, 0x039F, 0x03A3], [0x0398, 0x035E, 0x03A3, 0x035E]),
  ([0x0398, 0x0395, 0x039F, 0x03A5], [0x0398, 0x035E, 0x03A5, 0x035E]),
  ([0x0398, 0x0395, 0x03A9, 0x039D], [0x0398, 0x035E, 0x039D, 0x035E]),
  ([0x039A, 0x03A5, 0x03A1, 0x0399, 0x039F, 0x03A3], [0x039A, 0x035E, 0x03A3, 0x035E]),
  ([0x039A, 0x03A5, 0x03A1, 0x0399, 0x039F, 0x03A5], [0x039A, 0x035E, 0x03A5, 0x035E]),
  ([0x039A, 0x03A5, 0x03A1, 0x0399, 0x03A9, 0x039D], [0x039A, 0x035E, 0x039D, 0x035E]),
  ([0x0399, 0x0397, 0x03A3, 0x039F, 0x03A5, 0x03A3], [0x0399, 0x035E, 0x03A3, 0x035E]),
  ([0x0399, 0x0397, 0x03A3, 0x039F, 0x03A5], [0x0399, 0x035E, 0x03A5, 0x035E]),
  ([0x03A7, 0x03A1, 0x0399, 0x03A3, 0x03A4, 0x039F, 0x03A3], [0x03A7, 0x035E, 0x03A3, 0x035E]),
  ([0x03A7, 0x03A1, 0x0399, 0x03A3, 0x03A4, 0x039F, 0x03A5], [0x03A7, 0x035E, 0x03A5, 0x035E]),
  ([0x03A0, 0x039D, 0x0395, 0x03A5, 0x039C, 0x0391], [0x03A0, 0x035E, 0x039D, 0x035E, 0x0391, 0x035E]),
  ([0x03A0, 0x039D, 0x0395, 0x03A5, 0x039C, 0x0391, 0x03A4, 0x039F, 0x03A3], [0x03A0, 0x035E, 0x039D, 0x035E, 0x03A3, 0x035E]),
  ([0x03A5, 0x0399, 0x039F, 0x03A3], [0x03A5, 0x035E, 0x03A3, 0x035E]),
  ([0x03A5, 0x0399, 0x039F, 0x03A5], [0x03A5, 0x035E, 0x03A5, 0x035E]),
  ([0x03A0, 0x0391, 0x03A4, 0x0397, 0x03A1], [0x03A0, 0x035E, 0x0397, 0x035E, 0x03A1, 0x035E]),
  ([0x03A0, 0x0391, 0x03A4, 0x03A1, 0x039F, 0x03A3], [0x03A0, 0x035E, 0x03A1, 0x035E, 0x03A3, 0x035E]),
  ([0x039C, 0x0397, 0x03A4, 0x0397, 0x03A1], [0x039C, 0x035E, 0x0397, 0x035E, 0x03A1, 0x035E]),
  ([0x039C, 0x0397, 0x03A4, 0x03A1, 0x039F, 0x03A3], [0x039C, 0x035E, 0x03A1, 0x035E, 0x03A3, 0x035E]),
  ([0x0391, 0x039D, 0x0398, 0x03A1, 0x03A9, 0x03A0, 0x039F, 0x03A3], [0x0391, 0x035E, 0x039D, 0x035E, 0x039F, 0x035E, 0x03A3, 0x035E]),
  ([0x0391, 0x039D, 0x0398, 0x03A1, 0x03A9, 0x03A0, 0x039F, 0x03A5], [0x0391, 0x035E, 0x039D, 0x035E, 0x039F, 0x035E, 0x03A5, 0x035E]),
  ([0x039F, 0x03A5, 0x03A1, 0x0391, 0x039D, 0x039F, 0x03A3], [0x039F, 0x035E, 0x03A5, 0x035E, 0x039D, 0x035E, 0x03A3, 0x035E]),
  ([0x039F, 0x03A5, 0x03A1, 0x0391, 0x039D, 0x039F, 0x03A5], [0x039F, 0x035E, 0x03A5, 0x035E, 0x039D, 0x035E, 0x03A5, 0x035E]),
  ([0x0399, 0x03A3, 0x03A1, 0x0391, 0x0397, 0x039B], [0x0399, 0x035E, 0x0397, 0x035E, 0x039B, 0x035E]),
  ([0x0394, 0x0391, 0x03A5, 0x0399, 0x0394], [0x0394, 0x035E, 0x0391, 0x035E, 0x0394, 0x035E]),
  ([0x0399, 0x0395, 0x03A1, 0x039F, 0x03A5, 0x03A3, 0x0391, 0x039B, 0x0397, 0x039C], [0x0399, 0x035E, 0x039B, 0x035E, 0x0397, 0x035E, 0x039C, 0x035E]),
  ([0x03A3, 0x03A4, 0x0391, 0x03A5, 0x03A1, 0x039F, 0x03A3], [0x03A3, 0x035E, 0x03A4, 0x035E, 0x03A3, 0x035E])
]


/-- `_remove_accents` (source lines 89-128): apply the Greek monotonic
exception map, decompose to NFD, drop the nonspacing marks, recompose to
NFC. -/
def _remove_accents (text : Str) : Str :=
  let result := chainRules greek_monotonic_map text
  let nfdr := nfd result
  let without_accents := nfdr.filter (fun c => !(isMn c))
  nfc without_accents

/-- `convert_iota_subscript_to_adscript` (source lines 131-228): apply the
lowercase table then the uppercase table, each by successive
`str.replace` calls in source order. -/
def convert_iota_subscript_to_adscript (text : Str) : Str :=
  let result := chainRules lowercase_map text
  chainRules uppercase_map result

/-- `apply_scriptio_continua` (source lines 231-250):
`re.sub(r"[ \t]+", "", text)`. -/
def apply_scriptio_continua (text : Str) : Str :=
  subRuns (fun c => c == 0x20 || c == 0x09) [] text

/-- `apply_interpunct` (source lines 253-273):
`re.sub(r" +", "·", text.strip())`. -/
def apply_interpunct (text : Str) : Str :=
  subRuns (fun c => c == 0x20) [0xB7] (pyStrip text)

/-- `_apply_word_separator` (source lines 276-286):
`re.sub(r" +", separator, text.strip())`. -/
def _apply_word_separator (text separator : Str) : Str :=
  subRuns (fun c => c == 0x20) separator (pyStrip text)

/-- Stable insertion of an entry into a list sorted by weakly decreasing key
length: the entry goes before the first entry whose key is not longer,
keeping earlier entries ahead of later ones of equal length. -/
def insertDescLen (x : Str × Str) : List (Str × Str) → List (Str × Str)
  | [] => [x]
  | y :: ys =>
    if y.1.length ≤ x.1.length then x :: y :: ys
    else y :: insertDescLen x ys

/-- Python `sorted(d.items(), key=lambda x: -len(x[0]))`: a stable sort by
descending key length. -/
def sortByDescLen (l : List (Str × Str)) : List (Str × Str) :=
  l.foldr insertDescLen []

/-- `apply_nomina_sacra` (source lines 289-366): for Koine Greek only,
iterate the dictionary sorted by descending key length and replace each
full word, with `\b` word boundaries, by its overlined abbreviation. -/
def apply_nomina_sacra (text : Str) (language_code : String := "grc-koi") : Str :=
  if language_code ≠ "grc-koi" then text
  else
    (sortByDescLen nomina_sacra).foldl
      (fun acc p => subWordBounded p.1 p.2 acc) text

/-- `remove_modern_punctuation` (source lines 369-415): apply the
punctuation table in order, collapse space runs, strip. -/
def remove_modern_punctuation (text : Str) (language_code : String) : Str :=
  let result := chainRules modern_punctuation text
  pyStrip (subRuns (fun c => c == 0x20) [0x20] result)

/-! ## Language configuration (modelled: `language_config.py` is not part of
the analysed sources) -/

/-- Modelled from the spec: the `ScriptRules` record of the external
`language_config.py` (spec section 3) — case mode, accent policy, ordered
character-normalization rules, the legacy V-for-U flag, the scriptio-continua
default and the optional word separator. -/
structure ScriptRules where
  case : String
  has_accents : Bool
  normalize_chars : List (Str × Str)
  char_v_for_u : Bool
  scriptio_continua_default : Bool
  word_separator : Option Str

/-- Modelled from the spec: the `LanguageConfig` record of the external
`language_config.py` (spec section 3). -/
structure LanguageConfig where
  language_code : String
  native_name : Str
  script : ScriptRules

/-- Modelled from the spec: the Classical Greek configuration served by the
external registry — authentic Greek is uppercased and accent-stripped
(spec section 8's pipeline scenario), with no character-normalization
rules, no V-for-U, and no configured word separator. -/
def grcConfig : LanguageConfig :=
  { language_code := "grc"
    native_name := [0x1F19, 0x3BB, 0x3BB, 0x3B7, 0x3BD, 0x3B9, 0x3BA, 0x3AE]
    script :=
      { case := "upper"
        has_accents := false
        normalize_chars := []
        char_v_for_u := false
        scriptio_continua_default := false
        word_separator := none } }

/-- Modelled from the spec: the Koine Greek configuration, like `grc`. -/
def koiConfig : LanguageConfig :=
  { language_code := "grc-koi"
    native_name := [0x39A, 0x3BF, 0x3B9, 0x3BD, 0x3AE]
    script :=
      { case := "upper"
        has_accents := false
        normalize_chars := []
        char_v_for_u := false
        scriptio_continua_default := false
        word_separator := none } }

/-- Modelled from the spec: the Classical Latin configuration with the
legacy V-for-U flag set (spec sections 4.9 and 8: a V-for-U Latin config
exists and mandates upper case). -/
def latConfig : LanguageConfig :=
  { language_code := "lat"
    native_name := [0x4C, 0x61, 0x74, 0x69, 0x6E, 0x61]
    script :=
      { case := "upper"
        has_accents := false
        normalize_chars := []
        char_v_for_u := true
        scriptio_continua_default := false
        word_separator := none } }

/-- Modelled from the spec: the registry-level default configuration
returned for unknown language codes (spec sections 6 and 7): permissive
mixed-case rules. -/
def defaultConfig : LanguageConfig :=
  { language_code := "default"
    native_name := []
    script :=
      { case := "mixed"
        has_accents := true
        normalize_chars := []
        char_v_for_u := false
        scriptio_continua_default := false
        word_separator := none } }

/-- Modelled from the spec: `get_language_config` of the external registry —
lookup by language code, falling back to the registry default for unknown
codes (spec section 6). -/
def get_language_config (language_code : String) : LanguageConfig :=
  if language_code = "grc" then grcConfig
  else if language_code = "grc-koi" then koiConfig
  else if language_code = "lat" then latConfig
  else defaultConfig

/-- `apply_script_transform_with_config` (source lines 42-86). -/
def apply_script_transform_with_config (text : Str) (config : LanguageConfig) : Str :=
  if text = [] then text
  else
    let r1 := config.script.normalize_chars.foldl
      (fun acc p => pyReplace acc p.1 p.2) text
    let r2 := if !config.script.has_accents then _remove_accents r1 else r1
    let r3 :=
      if config.script.case = "upper" then py_upper r2
      else if config.script.case = "lower" then py_lower r2
      else r2
    let r4 :=
      if config.script.char_v_for_u && config.script.normalize_chars.isEmpty then
        pyReplace (pyReplace r3 [0x55] [0x56]) [0x75] [0x76]
      else r3
    let r5 :=
      if config.script.scriptio_continua_default &&
         config.script.word_separator == none then
        apply_scriptio_continua r4
      else r4
    match config.script.word_separator with
    | some sep => if sep ≠ [] then _apply_word_separator r5 sep else r5
    | none => r5

/-- `apply_script_transform` (source lines 28-39). -/
def apply_script_transform (text : Str) (language_code : String) : Str :=
  apply_script_transform_with_config text (get_language_config language_code)

/-- Modelled from the spec: the `ScriptDisplayMode` preferences object of
the external `app.api.schemas.script_preferences` — exactly five boolean
fields (spec sections 3 and 6). -/
structure ScriptDisplayMode where
  use_scriptio_continua : Bool
  use_interpuncts : Bool
  use_iota_adscript : Bool
  use_nomina_sacra : Bool
  remove_modern_punctuation : Bool

/-- `apply_script_preferences` (source lines 556-640): the orchestrator.
A supplied preferences object replaces all five individual flags; then
the stages run in the fixed source order. -/
def apply_script_preferences (text : Str) (language_code : String)
    (preferences : Option ScriptDisplayMode := none)
    (authentic_mode : Bool := false)
    (use_scriptio_continua : Bool := false)
    (use_interpuncts : Bool := false)
    (use_iota_adscript : Bool := true)
    (use_nomina_sacra : Bool := false)
    (remove_punctuation : Bool := false) : Str :=
  if text = [] then text
  else
    let use_scriptio_continua :=
      match preferences with
      | some p => p.use_scriptio_continua
      | none => use_scriptio_continua
    let use_interpuncts :=
      match preferences with
      | some p => p.use_interpuncts
      | none => use_interpuncts
    let use_iota_adscript :=
      match preferences with
      | some p => p.use_iota_adscript
      | none => use_iota_adscript
    let use_nomina_sacra :=
      match preferences with
      | some p => p.use_nomina_sacra
      | none => use_nomina_sacra
    let remove_punctuation :=
      match preferences with
      | some p => p.remove_modern_punctuation
      | none => remove_punctuation
    let r1 :=
      if authentic_mode then apply_script_transform text language_code else text
    let r2 :=
      if use_iota_adscript && (language_code = "grc" || language_code = "grc-koi") then
        convert_iota_subscript_to_adscript r1
      else r1
    let r3 :=
      if remove_punctuation then remove_modern_punctuation r2 language_code else r2
    let r4 :=
      if use_nomina_sacra && language_code = "grc-koi" then
        apply_nomina_sacra r3 language_code
      else r3
    if use_scriptio_continua then apply_scriptio_continua r4
    else if use_interpuncts then apply_interpunct r4
    else r4

/-- `validate_script_authenticity` (source lines 916-943).  The Python code
compares the float `upper / max(1, alpha)` with the literal `0.8`; for
every string short enough to exist in memory (fewer than about 10^15
characters) that comparison coincides with the exact rational comparison
`5 * upper < 4 * max 1 alpha` used here. -/
def validate_script_authenticity (text : Str) (language_code : String) : Bool :=
  if text = [] then true
  else
    let config := get_language_config language_code
    if config.script.case = "upper" &&
       decide (5 * text.countP isupperPy < 4 * max 1 (text.countP isalphaPy)) then
      false
    else if config.script.char_v_for_u &&
            (text.contains 0x55 || text.contains 0x75) then
      false
    else
      true

/-! ## Basic lemmas about the string primitives -/

theorem mapCat_append (f : Nat → Str) (a b : Str) :
    mapCat f (a ++ b) = mapCat f a ++ mapCat f b := by
  induction a with
  | nil => rfl
  | cons c rest ih => simp [mapCat, ih]

theorem mapCat_mapCat (f g : Nat → Str) (s : Str) :
    mapCat g (mapCat f s) = mapCat (fun c => mapCat g (f c)) s := by
  induction s with
  | nil => rfl
  | cons c rest ih => simp [mapCat, mapCat_append, ih]

theorem mapCat_id_of (f : Nat → Str) (s : Str) (h : ∀ c ∈ s, f c = [c]) :
    mapCat f s = s := by
  induction s with
  | nil => rfl
  | cons c rest ih =>
    simp only [mapCat, h c (List.mem_cons_self c rest)]
    simp [ih fun d hd => h d (List.mem_cons_of_mem c hd)]

theorem mapCat_congr (f g : Nat → Str) (s : Str) (h : ∀ c ∈ s, f c = g c) :
    mapCat f s = mapCat g s := by
  induction s with
  | nil => rfl
  | cons c rest ih =>
    simp only [mapCat, h c (List.mem_cons_self c rest)]
    simp [ih fun d hd => h d (List.mem_cons_of_mem c hd)]

theorem mem_mapCat (f : Nat → Str) (s : Str) (d : Nat) (h : d ∈ mapCat f s) :
    ∃ c ∈ s, d ∈ f c := by
  induction s with
  | nil => cases h
  | cons c rest ih =>
    simp only [mapCat, List.mem_append] at h
    rcases h with h | h
    · exact ⟨c, List.mem_cons_self c rest, h⟩
    · rcases ih h with ⟨e, he, hd⟩
      exact ⟨e, List.mem_cons_of_mem c he, hd⟩

theorem assoc_mem {α : Type} (c : Nat) (v : α) :
    ∀ (t : List (Nat × α)), assoc c t = some v → (c, v) ∈ t := by
  intro t
  induction t with
  | nil => intro h; cases h
  | cons p rest ih =>
    intro h
    by_cases hc : c = p.1
    · subst hc
      simp only [assoc, if_pos rfl] at h
      cases h
      exact List.mem_cons_self _ _
    · simp only [assoc, if_neg hc] at h
      exact List.mem_cons_of_mem _ (ih h)

theorem pyReplaceAux_single (k : Nat) (v : Str) :
    ∀ (n : Nat) (s : Str), s.length ≤ n →
      pyReplaceAux [k] v n s = mapCat (fun c => if c = k then v else [c]) s := by
  intro n
  induction n with
  | zero =>
    intro s hs
    have : s = [] := List.eq_nil_of_length_eq_zero (Nat.le_zero.mp hs)
    subst this
    rfl
  | succ m ih =>
    intro s hs
    cases s with
    | nil => rfl
    | cons c rest =>
      have hr : rest.length ≤ m := Nat.le_of_succ_le_succ hs
      by_cases hck : c = k
      · subst hck
        simp [pyReplaceAux, prefMatch, mapCat, ih rest hr]
      · have : (k == c) = false := by
          simp [beq_iff_eq]
          exact fun h => hck h.symm
        simp [pyReplaceAux, prefMatch, this, mapCat, if_neg hck, ih rest hr]

theorem pyReplace_single (s : Str) (k : Nat) (v : Str) :
    pyReplace s [k] v = mapCat (fun c => if c = k then v else [c]) s :=
  pyReplaceAux_single k v s.length s (Nat.le_refl _)

theorem pyReplace_not_mem (s : Str) (k : Nat) (v : Str) (h : k ∉ s) :
    pyReplace s [k] v = s := by
  rw [pyReplace_single]
  apply mapCat_id_of
  intro c hc
  rw [if_neg]
  intro hck
  exact h (hck ▸ hc)

theorem chainRules_cons (p : Nat × Str) (rules : List (Nat × Str)) (s : Str) :
    chainRules (p :: rules) s = chainRules rules (pyReplace s [p.1] p.2) := by
  simp [chainRules]

theorem chainRules_charwise :
    ∀ (rules : List (Nat × Str)) (s : Str),
      chainRules rules s = mapCat (fun c => chainRules rules [c]) s := by
  intro rules
  induction rules with
  | nil =>
    intro s
    simp only [chainRules, List.foldl_nil]
    exact (mapCat_id_of _ s fun c _ => rfl).symm
  | cons p rest ih =>
    intro s
    rw [chainRules_cons, pyReplace_single, ih, mapCat_mapCat]
    apply mapCat_congr
    intro c _
    rw [chainRules_cons, pyReplace_single]
    simp only [mapCat, List.append_nil]
    exact (ih _).symm

theorem chainRules_noop :
    ∀ (rules : List (Nat × Str)) (s : Str), (∀ p ∈ rules, p.1 ∉ s) →
      chainRules rules s = s := by
  intro rules
  induction rules with
  | nil => intro s _; rfl
  | cons p rest ih =>
    intro s h
    rw [chainRules_cons, pyReplace_not_mem s p.1 p.2 (h p (List.mem_cons_self p rest))]
    exact ih s fun q hq => h q (List.mem_cons_of_mem p hq)

theorem subRunsGo_del (p : Nat → Bool) :
    ∀ (s : Str) (b : Bool), subRunsGo p [] b s = s.filter (fun c => !p c) := by
  intro s
  induction s with
  | nil => intro b; rfl
  | cons c rest ih =>
    intro b
    by_cases hc : p c = true
    · simp [subRunsGo, hc, ih, List.filter_cons]
    · simp [subRunsGo, hc, ih, List.filter_cons]

/-! ## Lemmas about the normalization model -/

theorem decompStep_of_inert (c : Nat) (h : inertB c = true) : decompStep c = [c] := by
  unfold inertB at h
  unfold decompStep
  rw [Option.isNone_iff_eq_none.mp h]

theorem expandOnce_fixed (s : Str) (h : ∀ c ∈ s, inertB c = true) :
    expandOnce s = s :=
  mapCat_id_of _ s fun c hc => decompStep_of_inert c (h c hc)

theorem expandFull_fixed (s : Str) (h : ∀ c ∈ s, inertB c = true) :
    expandFull s = s := by
  unfold expandFull
  rw [expandOnce_fixed s h, expandOnce_fixed s h, expandOnce_fixed s h,
    expandOnce_fixed s h]

theorem rawDecomp_expand_check :
    rawDecomp.all (fun p => (expandFull [p.1]).all inertB) = true := by decide

theorem expandFull_singleton_inert (c : Nat) :
    ∀ d ∈ expandFull [c], inertB d = true := by
  cases h : assoc c rawDecomp with
  | none =>
    have hc : inertB c = true := by
      unfold inertB
      rw [h]
      rfl
    rw [expandFull_fixed [c] (by intro d hd; rw [List.mem_singleton.mp hd]; exact hc)]
    intro d hd
    rw [List.mem_singleton.mp hd]
    exact hc
  | some v =>
    have hm : (c, v) ∈ rawDecomp := assoc_mem c v rawDecomp h
    have := (List.all_eq_true.mp rawDecomp_expand_check) (c, v) hm
    exact fun d hd => (List.all_eq_true.mp this) d hd

theorem expandFull_append (a b : Str) :
    expandFull (a ++ b) = expandFull a ++ expandFull b := by
  unfold expandFull expandOnce
  rw [mapCat_append, mapCat_append, mapCat_append, mapCat_append]

theorem expandFull_all_inert : ∀ (s : Str), ∀ d ∈ expandFull s, inertB d = true := by
  intro s
  induction s with
  | nil => intro d hd; cases hd
  | cons c rest ih =>
    intro d hd
    have : expandFull (c :: rest) = expandFull [c] ++ expandFull rest := by
      have := expandFull_append [c] rest
      simpa using this
    rw [this] at hd
    rcases List.mem_append.mp hd with h | h
    · exact expandFull_singleton_inert c d h
    · exact ih d h

theorem reorderGo_perm :
    ∀ (s run : Str), List.Perm (reorderGo run s) (run.reverse ++ s) := by
  intro s
  induction s with
  | nil =>
    intro run
    simp only [reorderGo, List.append_nil]
    exact List.perm_insertionSort _ _
  | cons c rest ih =>
    intro run
    by_cases hc : ccc c = 0
    · simp only [reorderGo, if_pos hc]
      have h1 : List.Perm (sortRun run.reverse) run.reverse :=
        List.perm_insertionSort _ _
      have h2 : List.Perm (reorderGo [] rest) rest := by
        have := ih []
        simpa using this
      exact List.Perm.append h1 (List.Perm.cons c h2)
    · simp only [reorderGo, if_neg hc]
      have h := ih (c :: run)
      have h2 : (c :: run).reverse ++ rest = run.reverse ++ c :: rest := by
        simp
      rw [h2] at h
      exact h

theorem reorder_perm (s : Str) : List.Perm (reorder s) s := by
  have := reorderGo_perm s []
  simpa [reorder] using this

theorem nfd_all_inert (s : Str) : ∀ d ∈ nfd s, inertB d = true := by
  intro d hd
  unfold nfd at hd
  have hmem : d ∈ expandFull s := (reorder_perm (expandFull s)).mem_iff.mp hd
  exact expandFull_all_inert s d hmem

theorem reorder_id_of_ccc0 (s : Str) (h : ∀ c ∈ s, ccc c = 0) :
    reorder s = s := by
  unfold reorder
  induction s with
  | nil => rfl
  | cons c rest ih =>
    have hc : ccc c = 0 := h c (List.mem_cons_self c rest)
    simp only [reorderGo, if_pos hc]
    have : reorderGo [] rest = rest := ih fun d hd => h d (List.mem_cons_of_mem c hd)
    rw [this]
    rfl

theorem ccc_mn_check : cccTable.all (fun p => isMn p.1) = true := by decide

theorem ccc_zero_of_not_mn (c : Nat) (h : isMn c = false) : ccc c = 0 := by
  unfold ccc
  cases ha : assoc c cccTable with
  | none => rfl
  | some v =>
    have hm : (c, v) ∈ cccTable := assoc_mem c v cccTable ha
    have := (List.all_eq_true.mp ccc_mn_check) (c, v) hm
    simp only at this
    rw [this] at h
    cases h

theorem rawDecomp_pair_check :
    rawDecomp.all (fun p =>
      match p.2 with
      | [_, y] => !(ccc y == 0)
      | _ => true) = true := by decide

theorem primaryCompose_none_of_ccc0 (a b : Nat) (h : ccc b = 0) :
    primaryCompose a b = none := by
  unfold primaryCompose
  cases hf : rawDecomp.find? (fun q => q.2 == [a, b]) with
  | none => rfl
  | some q =>
    exfalso
    have hp := List.find?_some hf
    have hq : q.2 = [a, b] := by simpa using hp
    have hm : q ∈ rawDecomp := List.mem_of_find?_eq_some hf
    have hall := (List.all_eq_true.mp rawDecomp_pair_check) q hm
    rw [hq] at hall
    simp [h] at hall

theorem composeGo_id_of_ccc0 :
    ∀ (rest : Str), (∀ c ∈ rest, ccc c = 0) → ∀ L, composeGo L [] rest = L :: rest := by
  intro rest
  induction rest with
  | nil => intro _ L; rfl
  | cons c r ih =>
    intro h L
    have hc : ccc c = 0 := h c (List.mem_cons_self c r)
    have hpc : primaryCompose L c = none := primaryCompose_none_of_ccc0 L c hc
    simp only [composeGo, if_pos hc, List.isEmpty_nil, if_pos rfl, hpc]
    rw [ih (fun d hd => h d (List.mem_cons_of_mem c hd)) c]
    rfl

theorem composeSeq_id_of_ccc0 (s : Str) (h : ∀ c ∈ s, ccc c = 0) :
    composeSeq s = s := by
  cases s with
  | nil => rfl
  | cons c rest =>
    simp only [composeSeq]
    exact composeGo_id_of_ccc0 rest
      (fun d hd => h d (List.mem_cons_of_mem c hd)) c

theorem nfd_id_of_bare (s : Str)
    (h1 : ∀ c ∈ s, inertB c = true) (h2 : ∀ c ∈ s, ccc c = 0) :
    nfd s = s := by
  unfold nfd
  rw [expandFull_fixed s h1, reorder_id_of_ccc0 s h2]

theorem nfc_id_of_bare (s : Str)
    (h1 : ∀ c ∈ s, inertB c = true) (h2 : ∀ c ∈ s, ccc c = 0) :
    nfc s = s := by
  unfold nfc
  rw [nfd_id_of_bare s h1 h2, composeSeq_id_of_ccc0 s h2]

/-! ## Idempotence of the diacritic stripper and the case maps -/

theorem remove_accents_eq_filter (x : Str) :
    _remove_accents x =
      (nfd (chainRules greek_monotonic_map x)).filter (fun c => !(isMn c)) := by
  have hdef : _remove_accents x =
      nfc ((nfd (chainRules greek_monotonic_map x)).filter (fun c => !(isMn c))) := rfl
  rw [hdef]
  apply nfc_id_of_bare
  · intro c hc
    rw [List.mem_filter] at hc
    exact nfd_all_inert _ c hc.1
  · intro c hc
    rw [List.mem_filter] at hc
    have hmark := hc.2
    rw [Bool.not_eq_true'] at hmark
    exact ccc_zero_of_not_mn c hmark

theorem gm_keys_check :
    greek_monotonic_map.all (fun p => !(inertB p.1)) = true := by decide

theorem remove_accents_chars (x : Str) :
    ∀ c ∈ _remove_accents x, inertB c = true ∧ isMn c = false := by
  rw [remove_accents_eq_filter]
  intro c hc
  rw [List.mem_filter] at hc
  constructor
  · exact nfd_all_inert _ c hc.1
  · have hmark := hc.2
    rw [Bool.not_eq_true'] at hmark
    exact hmark

theorem remove_accents_idem (x : Str) :
    _remove_accents (_remove_accents x) = _remove_accents x := by
  have hchars := remove_accents_chars x
  have h1 : ∀ c ∈ _remove_accents x, inertB c = true :=
    fun c hc => (hchars c hc).1
  have h2 : ∀ c ∈ _remove_accents x, ccc c = 0 :=
    fun c hc => ccc_zero_of_not_mn c (hchars c hc).2
  rw [remove_accents_eq_filter (_remove_accents x)]
  have hgm : chainRules greek_monotonic_map (_remove_accents x) = _remove_accents x := by
    apply chainRules_noop
    intro p hp hmem
    have := (List.all_eq_true.mp gm_keys_check) p hp
    rw [Bool.not_eq_true'] at this
    rw [h1 p.1 hmem] at this
    cases this
  rw [hgm, nfd_id_of_bare _ h1 h2]
  apply List.filter_eq_self.mpr
  intro c hc
  rw [(hchars c hc).2]
  rfl

theorem upper_out_check :
    upperTable.all (fun p => p.2.all (fun d => (assoc d upperTable).isNone)) = true := by
  decide

theorem upperChar_of_none (c : Nat) (h : assoc c upperTable = none) :
    upperChar c = [c] := by
  unfold upperChar
  rw [h]

theorem upperChar_out_fixed (c : Nat) : ∀ d ∈ upperChar c, upperChar d = [d] := by
  cases h : assoc c upperTable with
  | none =>
    intro d hd
    rw [upperChar_of_none c h] at hd
    rw [List.mem_singleton.mp hd]
    exact upperChar_of_none c h
  | some v =>
    intro d hd
    have hv : upperChar c = v := by
      unfold upperChar
      rw [h]
    rw [hv] at hd
    have hm : (c, v) ∈ upperTable := assoc_mem c v upperTable h
    have hall := (List.all_eq_true.mp upper_out_check) (c, v) hm
    have hd2 := (List.all_eq_true.mp hall) d hd
    exact upperChar_of_none d (Option.isNone_iff_eq_none.mp hd2)

theorem py_upper_idem (s : Str) : py_upper (py_upper s) = py_upper s := by
  unfold py_upper
  rw [mapCat_mapCat]
  apply mapCat_congr
  intro c _
  exact mapCat_id_of _ _ (upperChar_out_fixed c)

theorem lower_out_check :
    lowerTable.all (fun p =>
      p.2.all (fun d => (assoc d lowerTable).isNone && !(d == 0x3A3))) = true := by
  decide

theorem lowerChar_of_none (c : Nat) (h : assoc c lowerTable = none) :
    lowerChar c = [c] := by
  unfold lowerChar
  rw [h]

theorem lowerGo_id_of :
    ∀ (s : Str), (∀ c ∈ s, assoc c lowerTable = none ∧ c ≠ 0x3A3) →
      ∀ b, lowerGo b s = s := by
  intro s
  induction s with
  | nil => intro _ b; rfl
  | cons c rest ih =>
    intro h b
    have hc := h c (List.mem_cons_self c rest)
    simp only [lowerGo, if_neg hc.2, lowerChar_of_none c hc.1]
    rw [ih (fun d hd => h d (List.mem_cons_of_mem c hd)) (c :: b)]
    rfl

theorem lowerGo_chars :
    ∀ (s b : Str), ∀ d ∈ lowerGo b s, assoc d lowerTable = none ∧ d ≠ 0x3A3 := by
  intro s
  induction s with
  | nil => intro b d hd; cases hd
  | cons c rest ih =>
    intro b d hd
    simp only [lowerGo] at hd
    rcases List.mem_append.mp hd with h | h
    · by_cases hc : c = 0x3A3
      · rw [if_pos hc] at h
        by_cases hctx : finalSigmaCtx b rest = true
        · rw [if_pos hctx] at h
          rw [List.mem_singleton.mp h]
          exact ⟨by decide, by decide⟩
        · rw [if_neg hctx] at h
          rw [List.mem_singleton.mp h]
          exact ⟨by decide, by decide⟩
      · rw [if_neg hc] at h
        cases ha : assoc c lowerTable with
        | none =>
          rw [lowerChar_of_none c ha] at h
          rw [List.mem_singleton.mp h]
          exact ⟨ha, hc⟩
        | some v =>
          have hv : lowerChar c = v := by
            unfold lowerChar
            rw [ha]
          rw [hv] at h
          have hm : (c, v) ∈ lowerTable := assoc_mem c v lowerTable ha
          have hall := (List.all_eq_true.mp lower_out_check) (c, v) hm
          have hd2 := (List.all_eq_true.mp hall) d h
          rw [Bool.and_eq_true] at hd2
          refine ⟨Option.isNone_iff_eq_none.mp hd2.1, ?_⟩
          have hne := hd2.2
          rw [Bool.not_eq_true'] at hne
          intro hdd
          rw [hdd] at hne
          simp at hne
    · exact ih (c :: b) d h

theorem py_lower_idem (s : Str) : py_lower (py_lower s) = py_lower s := by
  unfold py_lower
  exact lowerGo_id_of (lowerGo [] s) (lowerGo_chars s []) []

/-! ## Lemmas about the authenticity validator -/

theorem validate_empty (code : String) :
    validate_script_authenticity [] code = true := rfl

theorem validate_false_of_upper_ratio (text : Str) (code : String)
    (h : text ≠ [])
    (hc : (get_language_config code).script.case = "upper")
    (hlt : 5 * text.countP isupperPy < 4 * max 1 (text.countP isalphaPy)) :
    validate_script_authenticity text code = false := by
  unfold validate_script_authenticity
  rw [if_neg h]
  simp only [hc, hlt, decide_eq_true_eq]
  simp

theorem validate_false_of_v_for_u (text : Str) (code : String)
    (hv : (get_language_config code).script.char_v_for_u = true)
    (hcont : (text.contains 0x55 || text.contains 0x75) = true) :
    validate_script_authenticity text code = false := by
  have h : text ≠ [] := by
    intro he
    subst he
    simp [List.contains] at hcont
  unfold validate_script_authenticity
  rw [if_neg h]
  by_cases h1 : ((get_language_config code).script.case = "upper" &&
      decide (5 * text.countP isupperPy < 4 * max 1 (text.countP isalphaPy))) = true
  · simp [h1]
  · have hmem : 0x55 ∈ text ∨ 0x75 ∈ text := by
      simpa using hcont
    simp [h1, hv]
    intro hn
    rcases hmem with hm | hm
    · exact absurd hm hn
    · exact hm

/-! ## The claims -/

/-- C1: the spec (and the function's own docstring) states that
`apply_script_preferences("χαῖρε, ὦ φίλε", "grc", authentic_mode=True)`
returns `"ΧΑΙΡΕ Ω ΦΙΛΕ"` with no comma.  The code however only removes
punctuation when `remove_punctuation` is set, which defaults to false, so the
orchestrator returns `"ΧΑΙΡΕ, Ω ΦΙΛΕ"` (comma kept), and with
`use_interpuncts=True` it returns `"ΧΑΙΡΕ,·Ω·ΦΙΛΕ"`: the code contradicts
its own documented example. -/
theorem C1_pipeline_keeps_comma :
    apply_script_preferences
        [0x3C7, 0x3B1, 0x1FD6, 0x3C1, 0x3B5, 0x2C, 0x20, 0x1F66, 0x20,
         0x3C6, 0x3AF, 0x3BB, 0x3B5] "grc" none true false false true false false
      = [0x3A7, 0x391, 0x399, 0x3A1, 0x395, 0x2C, 0x20, 0x3A9, 0x20,
         0x3A6, 0x399, 0x39B, 0x395] ∧
    apply_script_preferences
        [0x3C7, 0x3B1, 0x1FD6, 0x3C1, 0x3B5, 0x2C, 0x20, 0x1F66, 0x20,
         0x3C6, 0x3AF, 0x3BB, 0x3B5] "grc" none true false true true false false
      = [0x3A7, 0x391, 0x399, 0x3A1, 0x395, 0x2C, 0xB7, 0x3A9, 0xB7,
         0x3A6, 0x399, 0x39B, 0x395] ∧
    apply_script_preferences
        [0x3C7, 0x3B1, 0x1FD6, 0x3C1, 0x3B5, 0x2C, 0x20, 0x1F66, 0x20,
         0x3C6, 0x3AF, 0x3BB, 0x3B5] "grc" none true false false true false false
      ≠ [0x3A7, 0x391, 0x399, 0x3A1, 0x395, 0x20, 0x3A9, 0x20,
         0x3A6, 0x399, 0x39B, 0x395] := by
  refine ⟨by decide, by decide, by decide⟩

/-- C2 (counterexample): the claim states
`convert_iota_subscript_to_adscript("ᾳ") = "ΑΙ"` (uppercase); the table in
the code maps the lowercase subscript form to the lowercase adscript `"αι"`,
so the claimed equation is false. -/
theorem C2_counterexample :
    convert_iota_subscript_to_adscript [0x1FB3] ≠ [0x391, 0x399] := by
  decide

/-- C2 (amended): on these inputs the conversion yields the lowercase
adscript forms, preserving case and unrelated accents:
`convert_iota_subscript_to_adscript("ᾳ") = "αι"` and
`convert_iota_subscript_to_adscript("τῷ λόγῳ") = "τωι λόγωι"`. -/
theorem C2_iota_adscript_lowercase :
    convert_iota_subscript_to_adscript [0x1FB3] = [0x3B1, 0x3B9] ∧
    convert_iota_subscript_to_adscript
        [0x3C4, 0x1FF7, 0x20, 0x3BB, 0x3CC, 0x3B3, 0x1FF3]
      = [0x3C4, 0x3C9, 0x3B9, 0x20, 0x3BB, 0x3CC, 0x3B3, 0x3C9, 0x3B9] := by
  refine ⟨by decide, by decide⟩

/-- C3: `apply_nomina_sacra("ΘΕΟΣ", "grc-koi")` yields `"Θ͞Σ͞"`, each
abbreviation letter carrying its own combining overline U+035E, and
`apply_nomina_sacra("ΚΥΡΙΟΣ ΙΗΣΟΥΣ ΧΡΙΣΤΟΣ", "grc-koi")` yields the three
independently abbreviated tokens separated by the original spaces. -/
theorem C3_nomina_sacra_examples :
    apply_nomina_sacra [0x398, 0x395, 0x39F, 0x3A3] "grc-koi"
      = [0x398, 0x35E, 0x3A3, 0x35E] ∧
    apply_nomina_sacra
        [0x39A, 0x3A5, 0x3A1, 0x399, 0x39F, 0x3A3, 0x20, 0x399, 0x397, 0x3A3,
         0x39F, 0x3A5, 0x3A3, 0x20, 0x3A7, 0x3A1, 0x399, 0x3A3, 0x3A4, 0x39F,
         0x3A3] "grc-koi"
      = [0x39A, 0x35E, 0x3A3, 0x35E, 0x20, 0x399, 0x35E, 0x3A3, 0x35E, 0x20,
         0x3A7, 0x35E, 0x3A3, 0x35E] := by
  refine ⟨by decide, by decide⟩

/-- C4 (counterexample): the claim states that a dictionary word immediately
followed by a combining diacritic mark is not treated as ending there and is
therefore left unreplaced; but the regex `\b` boundary of the code treats the
(non-word) combining mark U+0300 as a boundary, so `"ΘΕΟΣ̀"` is
changed. -/
theorem C4_counterexample :
    apply_nomina_sacra [0x398, 0x395, 0x39F, 0x3A3, 0x300] "grc-koi"
      ≠ [0x398, 0x395, 0x39F, 0x3A3, 0x300] := by
  decide

/-- C4 (amended): the word boundaries of `apply_nomina_sacra` are the regex
`\b` boundaries, where word characters are letters, digits and the
underscore; a combining diacritic mark is not a word character, so a
dictionary word immediately followed by one IS treated as ending there and
is replaced: `apply_nomina_sacra("ΘΕΟΣ̀") = "Θ͞Σ̀͞"`. -/
theorem C4_diacritic_is_boundary :
    apply_nomina_sacra [0x398, 0x395, 0x39F, 0x3A3, 0x300] "grc-koi"
      = [0x398, 0x35E, 0x3A3, 0x35E, 0x300] ∧
    isWordCharB 0x300 = false := by
  refine ⟨by decide, by decide⟩

/-- C5: `apply_scriptio_continua` deletes exactly the space and tab
characters and leaves every other character — in particular every
line-break — in place, and
`apply_scriptio_continua("ΜΗΝΙΝ ΑΕΙΔΕ ΘΕΑ") = "ΜΗΝΙΝΑΕΙΔΕΘΕΑ"`. -/
theorem C5_scriptio_continua_filter (s : Str) :
    apply_scriptio_continua s = s.filter (fun c => !(c == 0x20 || c == 0x09)) ∧
    apply_scriptio_continua
        [0x39C, 0x397, 0x39D, 0x399, 0x39D, 0x20, 0x391, 0x395, 0x399, 0x394,
         0x395, 0x20, 0x398, 0x395, 0x391]
      = [0x39C, 0x397, 0x39D, 0x399, 0x39D, 0x391, 0x395, 0x399, 0x394, 0x395,
         0x398, 0x395, 0x391] := by
  constructor
  · unfold apply_scriptio_continua subRuns
    exact subRunsGo_del _ s false
  · decide

/-- C6: the diacritic stripper `_remove_accents` (with its Greek
precomposed-accent exception map) and the full case maps `str.upper` /
`str.lower` are idempotent on every string. -/
theorem C6_strip_upper_lower_idempotent (x : Str) :
    _remove_accents (_remove_accents x) = _remove_accents x ∧
    py_upper (py_upper x) = py_upper x ∧
    py_lower (py_lower x) = py_lower x :=
  ⟨remove_accents_idem x, py_upper_idem x, py_lower_idem x⟩

/-- C7: every stage of the embedding is a total function on strings, and the
empty string is returned immediately and unmodified by both entry points,
for every language code, preference object, flag combination and
configuration. -/
theorem C7_empty_short_circuit (code : String) (prefs : Option ScriptDisplayMode)
    (am sc ip ia ns rp : Bool) (cfg : LanguageConfig) :
    apply_script_preferences [] code prefs am sc ip ia ns rp = [] ∧
    apply_script_transform_with_config [] cfg = [] :=
  ⟨rfl, rfl⟩

/-- C8: `validate_script_authenticity` returns false for every text
containing `U` or `u` under a configuration with `char_v_for_u`; returns
false for every non-empty text whose uppercase ratio is below 0.8 under an
upper-case configuration; and returns true for the empty string under every
configuration. -/
theorem C8_validator (text : Str) (code : String) :
    validate_script_authenticity [] code = true ∧
    ((get_language_config code).script.char_v_for_u = true →
      (text.contains 0x55 || text.contains 0x75) = true →
      validate_script_authenticity text code = false) ∧
    ((get_language_config code).script.case = "upper" → text ≠ [] →
      5 * text.countP isupperPy < 4 * max 1 (text.countP isalphaPy) →
      validate_script_authenticity text code = false) :=
  ⟨validate_empty code,
   fun hv hcont => validate_false_of_v_for_u text code hv hcont,
   fun hc hne hlt => validate_false_of_upper_ratio text code hne hc hlt⟩

/-- C8 (witness): the Latin configuration sets `char_v_for_u`, so the text
`"U"` is rejected; the Greek configuration mandates upper case, so the
all-lowercase text `"α"` is rejected. -/
theorem C8_validator_witness :
    validate_script_authenticity [0x55] "lat" = false ∧
    validate_script_authenticity [0x3B1] "grc" = false :=
  ⟨(C8_validator [0x55] "lat").2.1 (by decide) (by decide),
   (C8_validator [0x3B1] "grc").2.2 (by decide) (by decide) (by decide)⟩

/-- C9 (counterexample): the claim states that every non-empty text with no
alphabetic characters is rejected under an upper-case configuration; but the
Roman numeral U+2160 is uppercase (derived property `Uppercase`, via
`Other_Uppercase`) while not alphabetic, so the text `"Ⅰ"` has uppercase
ratio 1/max(1,0) = 1 and the validator accepts it. -/
theorem C9_counterexample :
    validate_script_authenticity [0x2160] "grc" = true ∧
    isalphaPy 0x2160 = false ∧ ([0x2160] : Str) ≠ [] := by
  refine ⟨by decide, by decide, by decide⟩

/-- C9 (amended): for every non-empty text that contains no alphabetic and
no uppercase characters (such as digits or punctuation only), the validator
under an upper-case configuration returns false, because the uppercase
ratio is 0 / max(1, 0) = 0, below the 0.8 threshold. -/
theorem C9_no_alpha_no_upper_rejected (text : Str) (code : String)
    (hne : text ≠ [])
    (halpha : ∀ c ∈ text, isalphaPy c = false)
    (hupper : ∀ c ∈ text, isupperPy c = false)
    (hc : (get_language_config code).script.case = "upper") :
    validate_script_authenticity text code = false := by
  have h1 : text.countP isupperPy = 0 :=
    List.countP_eq_zero.mpr fun a ha => by simp [hupper a ha]
  have h2 : text.countP isalphaPy = 0 :=
    List.countP_eq_zero.mpr fun a ha => by simp [halpha a ha]
  apply validate_false_of_upper_ratio text code hne hc
  rw [h1, h2]
  decide

/-- C9 (witness): the digit-only text `"1"` is rejected under the Greek
upper-case configuration. -/
theorem C9_witness :
    validate_script_authenticity [0x31] "grc" = false :=
  C9_no_alpha_no_upper_rejected [0x31] "grc" (by decide) (by decide)
    (by decide) (by decide)

/-- C10: `convert_iota_subscript_to_adscript` acts charwise on every input
(its 73 replacement rules have single-codepoint keys whose images contain no
keys), and it also rewrites the accent-only vowel forms that carry no iota
subscript — alpha with vrachy, alpha with macron, alpha with perispomeni,
eta with perispomeni and omega with perispomeni — to the bare lowercase
vowels, silently stripping those accents. -/
theorem C10_accent_only_rewrites (s : Str) :
    convert_iota_subscript_to_adscript s
      = mapCat (fun c => convert_iota_subscript_to_adscript [c]) s ∧
    convert_iota_subscript_to_adscript [0x1FB0] = [0x3B1] ∧
    convert_iota_subscript_to_adscript [0x1FB1] = [0x3B1] ∧
    convert_iota_subscript_to_adscript [0x1FB6] = [0x3B1] ∧
    convert_iota_subscript_to_adscript [0x1FC6] = [0x3B7] ∧
    convert_iota_subscript_to_adscript [0x1FF6] = [0x3C9] := by
  have hsplit : ∀ t : Str, convert_iota_subscript_to_adscript t
      = chainRules (lowercase_map ++ uppercase_map) t := by
    intro t
    unfold convert_iota_subscript_to_adscript chainRules
    rw [List.foldl_append]
  refine ⟨?_, by decide, by decide, by decide, by decide, by decide⟩
  rw [hsplit s, chainRules_charwise]
  apply mapCat_congr
  intro c _
  rw [hsplit [c]]

end ScriptUtils
